import Mathlib

/-!
Shallow embedding of src/helper/utils/juju_wait.py (the juju-wait poll loop).

The program repeatedly fetches a JSON cluster status, evaluates a readiness
predicate over it (dying services, modern agent-status, legacy log sniffing,
leadership), and returns success once the verdict has been ready continuously
for more than IDLE_CONFIRMATION (15) seconds.

Modelling conventions:
  - Python dicts become association lists (List (String × _)) built with
    dictInsert (replace-or-append, i.e. Python dict assignment semantics);
    lookup (dictGet) finds the first matching key.
  - Python sets become duplicate-free lists built with setAdd.
  - sorted(d.items()) becomes sortByKey (insertion sort on the key).
  - The external collaborators (get_log_tail, get_is_leader is True) are
    per-cycle oracles: pure functions carried in the cycle environment.
  - agent-version strings are carried already parsed into their dotted
    numeric components (LooseVersion of a dotted numeric string compares
    exactly as lexicographic comparison of those component lists); none
    models an absent or falsy version value.
  - datetime.utcnow() is a natural number of seconds supplied by each
    cycle environment; IDLE_CONFIRMATION = timedelta(seconds=15) is 15.
  - raise JujuWaitException(1) (line 226) becomes Except.error carrying the
    exit code 1 together with the sniffing state at the moment of the raise.
  - The agent-status field since (line 207) only feeds a debug log line and
    is carried as opaque data.
-/

deriving instance DecidableEq for Except

/-- The agent-status structure of a unit (Juju 1.24+): fields current and
since, per lines 205-208 of juju_wait.py. -/
structure AgentStatus where
  current : String
  since : String
deriving Repr, DecidableEq

/-- The per-unit record fields read by the wait loop: agent-status (modern),
and the legacy fields life, agent-state, agent-state-info, plus
agent-version.  Used both for top-level units and for subordinates, which
are accessed through exactly these keys in the source. -/
structure UnitRec where
  agentStatus? : Option AgentStatus
  life? : Option String
  agentState? : Option String
  agentStateInfo? : Option String
  agentVersion? : Option (List Nat)
deriving Repr, DecidableEq

/-- A top-level unit: its own record plus the optional subordinates map
(line 198: unit.get(subordinates-key, empty dict)). -/
structure JujuUnit where
  base : UnitRec
  subordinates? : Option (List (String × UnitRec))
deriving Repr, DecidableEq

/-- A service: life (line 174) and the optional units map (line 191). -/
structure JujuService where
  life? : Option String
  units? : Option (List (String × JujuUnit))
deriving Repr, DecidableEq

/-- The parsed JSON status document; the services key may be missing
(status.get with an empty-dict default, lines 173 and 190). -/
structure ClusterStatus where
  services? : Option (List (String × JujuService))
deriving Repr, DecidableEq

/-- Association-list lookup: Python dict read d.get(k). -/
def dictGet {β : Type} : List (String × β) → String → Option β
  | [], _ => none
  | (a, b) :: rest, k => if a = k then some b else dictGet rest k

/-- Python dict assignment d[k] = v: replace the existing binding for k,
or append a new one. -/
def dictInsert {β : Type} : List (String × β) → String → β → List (String × β)
  | [], k, v => [(k, v)]
  | (a, b) :: rest, k, v =>
      if a = k then (k, v) :: rest else (a, b) :: dictInsert rest k v

/-- Python set insertion s.add(x). -/
def setAdd (l : List String) (x : String) : List String :=
  if x ∈ l then l else l ++ [x]

/-- Lexicographic order on character lists (Python's string comparison by
code point). -/
def charListLE : List Char → List Char → Bool
  | [], _ => true
  | _ :: _, [] => false
  | a :: as, b :: bs => if a < b then true else if b < a then false else charListLE as bs

/-- String order used for sorted(): lexicographic by code point. -/
def strLE (a b : String) : Bool := charListLE a.data b.data

/-- Insert a key-value pair into a key-sorted association list. -/
def insertSorted {β : Type} (x : String × β) : List (String × β) → List (String × β)
  | [] => [x]
  | y :: ys => if strLE x.1 y.1 then x :: y :: ys else y :: insertSorted x ys

/-- sorted(d.items()): sort an association list by key. -/
def sortByKey {β : Type} : List (String × β) → List (String × β)
  | [] => []
  | x :: xs => insertSorted x (sortByKey xs)

/-- Dotted-version order: LooseVersion a <= LooseVersion b for versions
parsed into numeric components (lexicographic, shorter list first on ties). -/
def verLE : List Nat → List Nat → Bool
  | [], _ => true
  | _ :: _, [] => false
  | a :: as, b :: bs => if a < b then true else if b < a then false else verLE as bs

/-- LooseVersion(a) >= LooseVersion(b), line 252 of juju_wait.py. -/
def verGE (a b : List Nat) : Bool := verLE b a

/-- The characters before the first slash (all of them when no slash
occurs). -/
def takeUntilSlash : List Char → List Char
  | [] => []
  | c :: cs => if c = '/' then [] else c :: takeUntilSlash cs

/-- uname.split(slash, 1)[0]: the service name owning a unit (line 249). -/
def svcName (uname : String) : String := String.mk (takeUntilSlash uname.data)

/-- life in (dying, dead), lines 174 and 217. -/
def isDyingLife (l : Option String) : Bool :=
  decide (l = some "dying" ∨ l = some "dead")

/-- Lines 173-176: a dying or dead service clears readiness.  The source
iterates sorted(services.items()); the fold keeps that shape. -/
def dyingServicesScan (ready : Bool) (svcs : List (String × JujuService)) : Bool :=
  svcs.foldl (fun r p => if isDyingLife p.2.life? then false else r) ready

/-- The dictionaries built by the collection pass, lines 178-203:
all_units (a set, top-level unit names only as written), ready_units
(units lacking agent-status, scheduled for log sniffing), agent_status and
agent_version (flattened over units and subordinates). -/
structure Collected where
  all_units : List String
  ready_units : List (String × UnitRec)
  agent_status : List (String × AgentStatus)
  agent_version : List (String × Option (List Nat))
deriving Repr, DecidableEq

/-- Lines 198-203: classify one subordinate record. -/
def collectSub (c : Collected) (subname : String) (sub : UnitRec) : Collected :=
  let c := { c with agent_version := dictInsert c.agent_version subname sub.agentVersion? }
  match sub.agentStatus? with
  | some a => { c with agent_status := dictInsert c.agent_status subname a }
  | none => { c with ready_units := dictInsert c.ready_units subname sub }

/-- Lines 192-203: classify one top-level unit and its subordinates. -/
def collectUnit (c : Collected) (uname : String) (u : JujuUnit) : Collected :=
  let c := { c with all_units := setAdd c.all_units uname }
  let c := { c with agent_version := dictInsert c.agent_version uname u.base.agentVersion? }
  let c :=
    match u.base.agentStatus? with
    | some a => { c with agent_status := dictInsert c.agent_status uname a }
    | none => { c with ready_units := dictInsert c.ready_units uname u.base }
  (u.subordinates?.getD []).foldl (fun c p => collectSub c p.1 p.2) c

/-- Lines 190-203: the collection pass over every service and unit, in
insertion (document) order. -/
def collect (st : ClusterStatus) : Collected :=
  (st.services?.getD []).foldl
    (fun c ps => (ps.2.units?.getD []).foldl (fun c pu => collectUnit c pu.1 pu.2) c)
    ⟨[], [], [], []⟩

/-- Lines 205-210: every unit exposing agent-status with current different
from idle clears readiness; nothing here ever raises. -/
def agentStatusScan (ready : Bool) (entries : List (String × AgentStatus)) : Bool :=
  entries.foldl (fun r p => if p.2.current ≠ "idle" then false else r) ready

/-- The mutable state threaded through the legacy-unit loop of lines
212-241: the running ready flag, the fresh logs dict, the one-time
logging-reset flag, whether reset_logging was invoked during this cycle,
and the names sniffed this cycle (in sniff order). -/
structure SniffSt where
  ready : Bool
  logs : List (String × String)
  logging_reset : Bool
  resetCalled : Bool
  sniffed : List String
deriving Repr, DecidableEq

/-- Lines 216-241, body for one legacy unit: the elif chain checking
dying, agent-state error (raising JujuWaitException(1)), agent-state not
started, and finally - only while the running verdict is still ready -
the log sniff with its one-time reset_logging call and comparison of the
fetched tail line with the previous cycle's cached line. -/
def legacyStep (logTail : String → String) (prev_logs : List (String × String))
    (s : SniffSt) (uname : String) (u : UnitRec) : Except (Nat × SniffSt) SniffSt :=
  if isDyingLife u.life? then
    .ok { s with ready := false }
  else if u.agentState? = some "error" then
    .error (1, { s with ready := false })
  else if u.agentState? ≠ some "started" then
    .ok { s with ready := false }
  else if s.ready then
    let s :=
      if s.logging_reset then s
      else { s with logging_reset := true, resetCalled := true }
    let line := logTail uname
    let s := { s with logs := dictInsert s.logs uname line,
                      sniffed := s.sniffed ++ [uname] }
    if some line = dictGet prev_logs uname then .ok s
    else .ok { s with ready := false }
  else .ok s

/-- Lines 216-241: the loop over sorted(ready_units.items()); a raise
aborts the remaining iterations. -/
def legacyScan (logTail : String → String) (prev_logs : List (String × String))
    (s : SniffSt) : List (String × UnitRec) → Except (Nat × SniffSt) SniffSt
  | [] => .ok s
  | (n, u) :: rest =>
      match legacyStep logTail prev_logs s n u with
      | .error e => .error e
      | .ok s1 => legacyScan logTail prev_logs s1 rest

/-- The state of the leadership check, lines 245-259: the set of service
names seen, the set of services with an established leader, and - recorded
for the specification - the units a live is-leader query was issued for,
in query order. -/
structure LeaderSt where
  services : List String
  services_with_leader : List String
  queried : List String
deriving Repr, DecidableEq

/-- Lines 248-255, body for one agent_version entry: services.add always
runs; then the short-circuit condition sname not yet led, version truthy,
and version at least 1.23 (no query) or else a live is-leader query
returning true; queried records every is-leader invocation. -/
def leaderStep (isLeader : String → Bool) (s : LeaderSt)
    (uname : String) (ver : Option (List Nat)) : LeaderSt :=
  if svcName uname ∈ s.services_with_leader then
    { s with services := setAdd s.services (svcName uname) }
  else
    match ver with
    | none => { s with services := setAdd s.services (svcName uname) }
    | some v =>
        if verGE v [1, 23] then
          { s with services := setAdd s.services (svcName uname),
                   services_with_leader := setAdd s.services_with_leader (svcName uname) }
        else if isLeader uname then
          { s with services := setAdd s.services (svcName uname),
                   services_with_leader := setAdd s.services_with_leader (svcName uname),
                   queried := s.queried ++ [uname] }
        else
          { s with services := setAdd s.services (svcName uname),
                   queried := s.queried ++ [uname] }

/-- Lines 245-255: the leadership pass over agent_version.items() in
insertion order (the source does not sort here). -/
def checkLeaders (isLeader : String → Bool)
    (avs : List (String × Option (List Nat))) : LeaderSt :=
  avs.foldl (fun s p => leaderStep isLeader s p.1 p.2) ⟨[], [], []⟩

/-- Lines 256-259: any service without a leader clears readiness. -/
def leadershipReady (ls : LeaderSt) : Bool :=
  ls.services.all (fun sname => sname ∈ ls.services_with_leader)

/-- One cycle environment: the fetched status snapshot and the external
oracles for this cycle - get_log_tail, whether get_is_leader returns the
JSON value true, and the current wall-clock second (datetime.utcnow()). -/
structure CycleEnv where
  status : ClusterStatus
  logTail : String → String
  isLeader : String → Bool
  now : Nat

/-- Everything one non-fatal cycle of the loop body (lines 169-259)
computes: the final verdict, the all_units set, the fresh logs dict, the
updated logging-reset flag, whether reset_logging ran this cycle, the
units sniffed, and the units queried for leadership. -/
structure CycleOut where
  ready : Bool
  all_units : List String
  logs : List (String × String)
  logging_reset : Bool
  resetCalled : Bool
  sniffed : List String
  queried : List String
deriving Repr, DecidableEq

/-- Lines 169-259: one full readiness evaluation over a status snapshot.
An error result is the JujuWaitException(1) raise of line 226, carrying
the sniff state at the moment of the raise. -/
def evalCycle (env : CycleEnv) (prev_logs : List (String × String))
    (logging_reset : Bool) : Except (Nat × SniffSt) CycleOut :=
  let svcs := env.status.services?.getD []
  let ready := dyingServicesScan true (sortByKey svcs)
  let c := collect env.status
  let ready := agentStatusScan ready (sortByKey c.agent_status)
  match legacyScan env.logTail prev_logs ⟨ready, [], logging_reset, false, []⟩
      (sortByKey c.ready_units) with
  | .error e => .error e
  | .ok s =>
      if s.ready then
        let ls := checkLeaders env.isLeader c.agent_version
        .ok ⟨leadershipReady ls, c.all_units, s.logs, s.logging_reset,
             s.resetCalled, s.sniffed, ls.queried⟩
      else
        .ok ⟨false, c.all_units, s.logs, s.logging_reset,
             s.resetCalled, s.sniffed, []⟩

/-- IDLE_CONFIRMATION = timedelta(seconds=15), line 108. -/
def IDLE_CONFIRMATION : Nat := 15

/-- The loop-carried state of wait(): prev_logs, ready_since and the
logging_reset flag (lines 162-166, 275-277). -/
structure LoopState where
  prev_logs : List (String × String)
  ready_since : Option Nat
  logging_reset : Bool
deriving Repr, DecidableEq

/-- The state wait() starts from (lines 162-166). -/
def initState : LoopState := ⟨[], none, false⟩

/-- Lines 261-275, the debounce decision once the verdict is known:
none means return success now; some rs means keep looping with ready_since
set to rs.  A not-ready verdict clears ready_since; a ready verdict sets
it when absent, and succeeds only when ready_since + IDLE_CONFIRMATION is
strictly before the current time. -/
def stepDebounce (ready : Bool) (rs : Option Nat) (now : Nat) : Option (Option Nat) :=
  if ready then
    match rs with
    | none => some (some now)
    | some t => if t + IDLE_CONFIRMATION < now then none else some (some t)
  else some none

/-- The observable outcome of running the loop against a finite list of
cycle environments: success (carrying the ready_since value and all_units
that the final log line of lines 270-272 reports), a fatal exit code, or
running out of supplied cycles with a final loop state. -/
inductive RunResult where
  | success (ready_since : Option Nat) (all_units : List String)
  | fatal (code : Nat)
  | ranOut (st : LoopState)
deriving Repr, DecidableEq

/-- Lines 168-278: the poll loop, driven by a finite list of per-cycle
environments (statuses, oracles and clock readings); running past the end
of the list yields ranOut with the loop state that the next cycle would
have started from. -/
def waitLoop : LoopState → List CycleEnv → RunResult
  | st, [] => .ranOut st
  | st, e :: rest =>
      match evalCycle e st.prev_logs st.logging_reset with
      | .error (c, _) => .fatal c
      | .ok out =>
          match stepDebounce out.ready st.ready_since e.now with
          | none => .success st.ready_since out.all_units
          | some rs => waitLoop ⟨out.logs, rs, out.logging_reset⟩ rest

/-! ## Basic lemmas about the dictionary and set operations -/

theorem insertSorted_perm {β : Type} (x : String × β) (l : List (String × β)) :
    List.Perm (insertSorted x l) (x :: l) := by
  induction l with
  | nil => simp [insertSorted]
  | cons y ys ih =>
      cases h : strLE x.1 y.1
      · simp only [insertSorted, h, Bool.false_eq_true, if_false]
        exact (ih.cons y).trans (List.Perm.swap x y ys)
      · simp [insertSorted, h]

theorem sortByKey_perm {β : Type} (l : List (String × β)) :
    List.Perm (sortByKey l) l := by
  induction l with
  | nil => simp [sortByKey]
  | cons x xs ih => exact (insertSorted_perm x (sortByKey xs)).trans (ih.cons x)

theorem mem_sortByKey {β : Type} {p : String × β} {l : List (String × β)} :
    p ∈ sortByKey l ↔ p ∈ l :=
  (sortByKey_perm l).mem_iff

theorem nodup_map_fst_sortByKey {β : Type} {l : List (String × β)}
    (h : (l.map Prod.fst).Nodup) : ((sortByKey l).map Prod.fst).Nodup :=
  (((sortByKey_perm l).map Prod.fst).nodup_iff).mpr h

theorem mem_setAdd {l : List String} {x y : String} :
    y ∈ setAdd l x ↔ y = x ∨ y ∈ l := by
  unfold setAdd
  split_ifs with h
  · constructor
    · exact fun hy => Or.inr hy
    · rintro (rfl | hy) <;> assumption
  · simp [or_comm]

theorem self_mem_setAdd (l : List String) (x : String) : x ∈ setAdd l x :=
  mem_setAdd.mpr (Or.inl rfl)

theorem subset_setAdd (l : List String) (x : String) : l ⊆ setAdd l x :=
  fun _ h => mem_setAdd.mpr (Or.inr h)

theorem map_fst_dictInsert {β : Type} (m : List (String × β)) (k : String) (v : β) :
    (dictInsert m k v).map Prod.fst =
      if k ∈ m.map Prod.fst then m.map Prod.fst else m.map Prod.fst ++ [k] := by
  induction m with
  | nil => simp [dictInsert]
  | cons p rest ih =>
      by_cases h : p.1 = k
      · subst h
        simp [dictInsert]
      · have hne : ¬(k = p.1) := fun hh => h hh.symm
        simp only [dictInsert, if_neg h, List.map_cons, List.mem_cons, ih]
        by_cases h2 : k ∈ rest.map Prod.fst
        · simp [h2, hne]
        · simp [h2, hne]

theorem nodup_map_fst_dictInsert {β : Type} {m : List (String × β)}
    (h : (m.map Prod.fst).Nodup) (k : String) (v : β) :
    ((dictInsert m k v).map Prod.fst).Nodup := by
  rw [map_fst_dictInsert]
  split_ifs with hk
  · exact h
  · simp only [List.nodup_append, List.nodup_singleton]
    refine ⟨h, trivial, ?_⟩
    intro a ha hak
    simp only [List.mem_singleton] at hak
    exact hk (hak ▸ ha)

theorem dictInsert_eq_append {β : Type} {m : List (String × β)} {k : String}
    (h : k ∉ m.map Prod.fst) (v : β) : dictInsert m k v = m ++ [(k, v)] := by
  induction m with
  | nil => rfl
  | cons p rest ih =>
      simp only [List.map_cons, List.mem_cons] at h
      push_neg at h
      have hne : ¬(p.1 = k) := fun hh => h.1 hh.symm
      simp [dictInsert, hne, ih h.2]

theorem mem_dictInsert_self {β : Type} (m : List (String × β)) (k : String) (v : β) :
    (k, v) ∈ dictInsert m k v := by
  induction m with
  | nil => simp [dictInsert]
  | cons p rest ih =>
      by_cases h : p.1 = k
      · simp [dictInsert, h]
      · simp only [dictInsert, if_neg h, List.mem_cons]
        exact Or.inr ih

theorem mem_of_mem_dictInsert {β : Type} {m : List (String × β)} {k : String}
    {v : β} {p : String × β} (h : p ∈ dictInsert m k v) : p ∈ m ∨ p = (k, v) := by
  induction m with
  | nil => simpa [dictInsert] using h
  | cons q rest ih =>
      by_cases hq : q.1 = k
      · subst hq
        rcases List.mem_cons.mp (by simpa [dictInsert] using h) with h1 | h1
        · exact Or.inr h1
        · exact Or.inl (List.mem_cons.mpr (Or.inr h1))
      · rcases List.mem_cons.mp (by simpa [dictInsert, hq] using h) with h1 | h1
        · exact Or.inl (List.mem_cons.mpr (Or.inl h1))
        · rcases ih h1 with h2 | h2
          · exact Or.inl (List.mem_cons.mpr (Or.inr h2))
          · exact Or.inr h2

theorem dictGet_eq_none_iff {β : Type} {m : List (String × β)} {k : String} :
    dictGet m k = none ↔ k ∉ m.map Prod.fst := by
  induction m with
  | nil => simp [dictGet]
  | cons p rest ih =>
      by_cases h : p.1 = k
      · subst h
        simp [dictGet]
      · have hne : ¬(k = p.1) := fun hh => h hh.symm
        simp [dictGet, h, hne, ih]

theorem eq_of_mem_of_nodup_keys {β : Type} {l : List (String × β)}
    (h : (l.map Prod.fst).Nodup) {k : String} {x y : β}
    (hx : (k, x) ∈ l) (hy : (k, y) ∈ l) : x = y := by
  induction l with
  | nil => cases hx
  | cons p rest ih =>
      simp only [List.map_cons, List.nodup_cons] at h
      rcases List.mem_cons.mp hx with h1 | h1 <;> rcases List.mem_cons.mp hy with h2 | h2
      · rw [← h1] at h2
        exact congrArg Prod.snd h2.symm
      · exact absurd (by simpa using ⟨y, (h1 ▸ h2 : (p.1, y) ∈ rest)⟩ :
          p.1 ∈ rest.map Prod.fst) h.1
      · exact absurd (by simpa using ⟨x, (h2 ▸ h1 : (p.1, x) ∈ rest)⟩ :
          p.1 ∈ rest.map Prod.fst) h.1
      · exact ih h.2 h1 h2

/-! ## Lemmas about the legacy-unit loop (lines 216-241) -/

theorem ready_false_eta {s : SniffSt} (h : s.ready = false) :
    { s with ready := false } = s := by
  cases s
  simp_all

theorem legacyStep_error_inv (lt : String → String) (pl : List (String × String))
    {s : SniffSt} {n : String} {u : UnitRec} {e : Nat × SniffSt}
    (h : legacyStep lt pl s n u = .error e) :
    e = (1, { s with ready := false }) ∧ isDyingLife u.life? = false ∧
      u.agentState? = some "error" := by
  unfold legacyStep at h
  split_ifs at h <;>
    first
      | (simp_all; done)
      | ((try simp at h) <;> (split at h <;> simp_all))

theorem legacyStep_of_ready_false (lt : String → String) (pl : List (String × String))
    {s : SniffSt} (n : String) (u : UnitRec) (h : s.ready = false) :
    legacyStep lt pl s n u = .ok s ∨ legacyStep lt pl s n u = .error (1, s) := by
  unfold legacyStep
  simp only [h]
  split_ifs with h1 h2 h3 h4 <;>
    first
      | exact Or.inr (by rw [ready_false_eta h])
      | exact Or.inl (by rw [ready_false_eta h])
      | simp_all
      | exact Or.inl rfl

theorem legacyScan_of_ready_false (lt : String → String) (pl : List (String × String))
    {s : SniffSt} (l : List (String × UnitRec)) (h : s.ready = false) :
    legacyScan lt pl s l = .ok s ∨ legacyScan lt pl s l = .error (1, s) := by
  induction l with
  | nil => exact Or.inl rfl
  | cons p rest ih =>
      obtain ⟨n, u⟩ := p
      rcases legacyStep_of_ready_false lt pl n u h with h1 | h1
      · rcases ih with h2 | h2
        · exact Or.inl (by simp [legacyScan, h1, h2])
        · exact Or.inr (by simp [legacyScan, h1, h2])
      · exact Or.inr (by simp [legacyScan, h1])

theorem legacyStep_sniff_spec (lt : String → String) (pl : List (String × String))
    {s : SniffSt} (n : String) (u : UnitRec)
    (hd : isDyingLife u.life? = false) (hst : u.agentState? = some "started")
    (hr : s.ready = true) :
    legacyStep lt pl s n u = .ok
      { ready := decide (some (lt n) = dictGet pl n),
        logs := dictInsert s.logs n (lt n),
        logging_reset := true,
        resetCalled := (s.resetCalled || !s.logging_reset),
        sniffed := s.sniffed ++ [n] } := by
  unfold legacyStep
  by_cases h5 : s.logging_reset = true <;> by_cases h6 : some (lt n) = dictGet pl n <;>
    simp [hd, hst, hr, h5, h6]

theorem legacyStep_not_started (lt : String → String) (pl : List (String × String))
    {s : SniffSt} (n : String) (u : UnitRec)
    (hd : isDyingLife u.life? = false) (hst : u.agentState? ≠ some "started")
    (he : u.agentState? ≠ some "error") :
    legacyStep lt pl s n u = .ok { s with ready := false } := by
  unfold legacyStep
  simp [hd, hst, he]

theorem legacyStep_dying (lt : String → String) (pl : List (String × String))
    {s : SniffSt} (n : String) (u : UnitRec) (hd : isDyingLife u.life? = true) :
    legacyStep lt pl s n u = .ok { s with ready := false } := by
  unfold legacyStep
  simp [hd]

theorem legacyStep_skip (lt : String → String) (pl : List (String × String))
    {s : SniffSt} (n : String) (u : UnitRec)
    (hd : isDyingLife u.life? = false) (hst : u.agentState? = some "started")
    (hr : s.ready = false) :
    legacyStep lt pl s n u = .ok s := by
  unfold legacyStep
  simp [hd, hst, hr]

theorem legacyStep_ok_effects (lt : String → String) (pl : List (String × String))
    {s s1 : SniffSt} {n : String} {u : UnitRec}
    (h : legacyStep lt pl s n u = .ok s1) :
    (s1.logs = s.logs ∧ s1.sniffed = s.sniffed ∧ s1.logging_reset = s.logging_reset ∧
      s1.resetCalled = s.resetCalled ∧ (s1.ready = s.ready ∨ s1.ready = false)) ∨
    (s.ready = true ∧ isDyingLife u.life? = false ∧ u.agentState? = some "started" ∧
      s1 = { ready := decide (some (lt n) = dictGet pl n),
             logs := dictInsert s.logs n (lt n),
             logging_reset := true,
             resetCalled := (s.resetCalled || !s.logging_reset),
             sniffed := s.sniffed ++ [n] }) := by
  by_cases h1 : isDyingLife u.life? = true
  · rw [legacyStep_dying lt pl n u h1] at h
    injection h with h'
    subst h'
    exact Or.inl ⟨rfl, rfl, rfl, rfl, by simp⟩
  · have h1f : isDyingLife u.life? = false := by simpa using h1
    by_cases h2 : u.agentState? = some "error"
    · have : legacyStep lt pl s n u = .error (1, { s with ready := false }) := by
        unfold legacyStep
        simp [h1f, h2]
      rw [this] at h
      cases h
    · by_cases h3 : u.agentState? = some "started"
      · by_cases h4 : s.ready = true
        · rw [legacyStep_sniff_spec lt pl n u h1f h3 h4] at h
          injection h with h'
          exact Or.inr ⟨h4, h1f, h3, h'.symm⟩
        · rw [legacyStep_skip lt pl n u h1f h3 (by simpa using h4)] at h
          injection h with h'
          subst h'
          exact Or.inl ⟨rfl, rfl, rfl, rfl, Or.inl rfl⟩
      · rw [legacyStep_not_started lt pl n u h1f h3 h2] at h
        injection h with h'
        subst h'
        exact Or.inl ⟨rfl, rfl, rfl, rfl, by simp⟩

theorem legacyScan_error_of_mem (lt : String → String) (pl : List (String × String))
    {s : SniffSt} {l : List (String × UnitRec)} {n : String} {u : UnitRec}
    (hm : (n, u) ∈ l) (hd : isDyingLife u.life? = false)
    (he : u.agentState? = some "error") :
    ∃ s1, legacyScan lt pl s l = .error (1, s1) := by
  induction l generalizing s with
  | nil => cases hm
  | cons p rest ih =>
      obtain ⟨a, b⟩ := p
      rcases List.mem_cons.mp hm with heq | hmem
      · cases heq
        have hstep : legacyStep lt pl s n u = .error (1, { s with ready := false }) := by
          unfold legacyStep
          simp [hd, he]
        exact ⟨{ s with ready := false }, by simp [legacyScan, hstep]⟩
      · cases hstep : legacyStep lt pl s a b with
        | error e =>
            obtain ⟨he1, _, _⟩ := legacyStep_error_inv lt pl hstep
            subst he1
            exact ⟨{ s with ready := false }, by simp [legacyScan, hstep]⟩
        | ok s2 =>
            obtain ⟨s3, hs3⟩ := ih hmem (s := s2)
            exact ⟨s3, by simp [legacyScan, hstep, hs3]⟩

theorem legacyScan_error_inv (lt : String → String) (pl : List (String × String))
    {s s1 : SniffSt} {l : List (String × UnitRec)} {c : Nat}
    (h : legacyScan lt pl s l = .error (c, s1)) :
    c = 1 ∧ ∃ n u, (n, u) ∈ l ∧ isDyingLife u.life? = false ∧
      u.agentState? = some "error" := by
  induction l generalizing s with
  | nil => simp [legacyScan] at h
  | cons p rest ih =>
      obtain ⟨a, b⟩ := p
      cases hstep : legacyStep lt pl s a b with
      | error e =>
          obtain ⟨he1, hd, herr⟩ := legacyStep_error_inv lt pl hstep
          subst he1
          have h2 : (Except.error (1, { s with ready := false }) :
              Except (Nat × SniffSt) SniffSt) = .error (c, s1) := by
            simpa [legacyScan, hstep] using h
          injection h2 with h3
          exact ⟨(congrArg Prod.fst h3).symm, a, b, List.mem_cons_self (a, b) rest, hd, herr⟩
      | ok s2 =>
          have h' : legacyScan lt pl s2 rest = .error (c, s1) := by
            simpa [legacyScan, hstep] using h
          obtain ⟨hc, n, u, hm2, hd, he⟩ := ih h'
          exact ⟨hc, n, u, List.mem_cons.mpr (Or.inr hm2), hd, he⟩

theorem legacyScan_ready_false_of_dying (lt : String → String) (pl : List (String × String))
    {s s1 : SniffSt} {l : List (String × UnitRec)} {n : String} {u : UnitRec}
    (hm : (n, u) ∈ l) (hd : isDyingLife u.life? = true)
    (h : legacyScan lt pl s l = .ok s1) : s1.ready = false := by
  induction l generalizing s with
  | nil => cases hm
  | cons p rest ih =>
      obtain ⟨a, b⟩ := p
      rcases List.mem_cons.mp hm with heq | hmem
      · cases heq
        have hstep : legacyStep lt pl s n u = .ok { s with ready := false } := by
          unfold legacyStep
          simp [hd]
        have h' : legacyScan lt pl { s with ready := false } rest = .ok s1 := by
          simpa [legacyScan, hstep] using h
        rcases legacyScan_of_ready_false lt pl (s := { s with ready := false }) rest
            (by simp) with h2 | h2
        · rw [h2] at h'
          injection h' with h''
          rw [← h'']
        · rw [h2] at h'
          cases h'
      · cases hstep : legacyStep lt pl s a b with
        | error e => simp [legacyScan, hstep] at h
        | ok s2 => exact ih hmem (by simpa [legacyScan, hstep] using h)

theorem legacyScan_ok_of_no_error (lt : String → String) (pl : List (String × String))
    {s : SniffSt} {l : List (String × UnitRec)}
    (hno : ∀ n u, (n, u) ∈ l → u.agentState? = some "error" → isDyingLife u.life? = true) :
    ∃ s1, legacyScan lt pl s l = .ok s1 := by
  induction l generalizing s with
  | nil => exact ⟨s, rfl⟩
  | cons p rest ih =>
      obtain ⟨a, b⟩ := p
      cases hstep : legacyStep lt pl s a b with
      | error e =>
          obtain ⟨_, hd, herr⟩ := legacyStep_error_inv lt pl hstep
          have hdy := hno a b (List.mem_cons_self (a, b) rest) herr
          rw [hdy] at hd
          cases hd
      | ok s2 =>
          obtain ⟨s3, h3⟩ := ih (s := s2)
            (fun n u hm2 he => hno n u (List.mem_cons.mpr (Or.inr hm2)) he)
          exact ⟨s3, by simp [legacyScan, hstep, h3]⟩

/-! ## Lemmas about the agent-status scan (lines 205-210) -/

theorem agentStatusScan_cons (r : Bool) (p : String × AgentStatus)
    (rest : List (String × AgentStatus)) :
    agentStatusScan r (p :: rest) =
      agentStatusScan (if p.2.current ≠ "idle" then false else r) rest := rfl

theorem agentStatusScan_false (entries : List (String × AgentStatus)) :
    agentStatusScan false entries = false := by
  induction entries with
  | nil => rfl
  | cons p rest ih =>
      rw [agentStatusScan_cons]
      split_ifs <;> exact ih

theorem agentStatusScan_false_of_mem {r : Bool} {entries : List (String × AgentStatus)}
    {n : String} {a : AgentStatus} (hm : (n, a) ∈ entries) (hne : a.current ≠ "idle") :
    agentStatusScan r entries = false := by
  induction entries generalizing r with
  | nil => cases hm
  | cons p rest ih =>
      rw [agentStatusScan_cons]
      rcases List.mem_cons.mp hm with heq | hmem
      · have : p.2.current ≠ "idle" := by rw [← heq]; exact hne
        rw [if_pos this]
        exact agentStatusScan_false rest
      · exact ih hmem

theorem agentStatusScan_id {r : Bool} {entries : List (String × AgentStatus)}
    (h : ∀ p ∈ entries, (Prod.snd p).current = "idle") :
    agentStatusScan r entries = r := by
  induction entries generalizing r with
  | nil => rfl
  | cons p rest ih =>
      rw [agentStatusScan_cons]
      rw [if_neg (by simp [h p (List.mem_cons_self p rest)])]
      exact ih (fun q hq => h q (List.mem_cons.mpr (Or.inr hq)))

/-! ## Invariants of the sniffing state across the legacy loop -/

/-- Relation between the one-time-reset bookkeeping fields and the set of
units sniffed so far, relative to the logging_reset flag the cycle started
with. -/
def resetInv (b0 : Bool) (s : SniffSt) : Prop :=
  s.resetCalled = (!b0 && !s.sniffed.isEmpty) ∧
    s.logging_reset = (b0 || !s.sniffed.isEmpty)

theorem legacyStep_resetInv (lt : String → String) (pl : List (String × String))
    {b0 : Bool} {s s1 : SniffSt} {n : String} {u : UnitRec} (hi : resetInv b0 s) :
    (legacyStep lt pl s n u = .ok s1 → resetInv b0 s1) ∧
    (∀ c, legacyStep lt pl s n u = .error (c, s1) → resetInv b0 s1) := by
  obtain ⟨hi1, hi2⟩ := hi
  constructor
  · intro h
    rcases legacyStep_ok_effects lt pl h with
      ⟨hl, hs, hlr, hrc, _⟩ | ⟨_, _, _, hs1⟩
    · exact ⟨by rw [hrc, hs, hi1], by rw [hlr, hs, hi2]⟩
    · subst hs1
      constructor
      · simp only [hi1, hi2]
        cases b0 <;> cases he : s.sniffed.isEmpty <;> simp [he]
      · simp
  · intro c h
    obtain ⟨he1, _, _⟩ := legacyStep_error_inv lt pl h
    have : s1 = { s with ready := false } := congrArg Prod.snd he1
    subst this
    exact ⟨hi1, hi2⟩

theorem legacyScan_resetInv (lt : String → String) (pl : List (String × String))
    {b0 : Bool} {s : SniffSt} {l : List (String × UnitRec)} (hi : resetInv b0 s) :
    (∀ s1, legacyScan lt pl s l = .ok s1 → resetInv b0 s1) ∧
    (∀ c s1, legacyScan lt pl s l = .error (c, s1) → resetInv b0 s1) := by
  induction l generalizing s with
  | nil =>
      refine ⟨fun s1 h => ?_, fun c s1 h => by cases h⟩
      injection h with h'
      subst h'
      exact hi
  | cons p rest ih =>
      obtain ⟨a, b⟩ := p
      constructor
      · intro s1 h
        cases hstep : legacyStep lt pl s a b with
        | error e => simp [legacyScan, hstep] at h
        | ok s2 =>
            have h2 : legacyScan lt pl s2 rest = .ok s1 := by
              simpa [legacyScan, hstep] using h
            exact (ih ((legacyStep_resetInv lt pl hi).1 hstep)).1 s1 h2
      · intro c s1 h
        cases hstep : legacyStep lt pl s a b with
        | error e =>
            obtain ⟨a2, b2⟩ := e
            have h2 : (Except.error (a2, b2) : Except (Nat × SniffSt) SniffSt) =
                .error (c, s1) := by simpa [legacyScan, hstep] using h
            injection h2 with h3
            have hc : a2 = c := congrArg Prod.fst h3
            have hs1 : b2 = s1 := congrArg Prod.snd h3
            subst hc
            subst hs1
            exact (legacyStep_resetInv lt pl hi).2 a2 hstep
        | ok s2 =>
            have h2 : legacyScan lt pl s2 rest = .error (c, s1) := by
              simpa [legacyScan, hstep] using h
            exact (ih ((legacyStep_resetInv lt pl hi).1 hstep)).2 c s1 h2

/-- Relation between the fresh logs dictionary and the sniffed-unit list:
the logs keys are exactly the sniffed names in order, and each value is the
tail line fetched this cycle. -/
def logsInv (lt : String → String) (s : SniffSt) : Prop :=
  s.logs.map Prod.fst = s.sniffed ∧ ∀ p ∈ s.logs, p.2 = lt p.1

theorem legacyScan_logsInv (lt : String → String) (pl : List (String × String))
    {s : SniffSt} {l : List (String × UnitRec)}
    (hnd : (l.map Prod.fst).Nodup) (hdisj : ∀ p ∈ l, p.1 ∉ s.sniffed)
    (hi : logsInv lt s) {s1 : SniffSt} (h : legacyScan lt pl s l = .ok s1) :
    logsInv lt s1 := by
  induction l generalizing s with
  | nil =>
      injection h with h'
      subst h'
      exact hi
  | cons p rest ih =>
      obtain ⟨a, b⟩ := p
      simp only [List.map_cons, List.nodup_cons] at hnd
      cases hstep : legacyStep lt pl s a b with
      | error e => simp [legacyScan, hstep] at h
      | ok s2 =>
          have h2 : legacyScan lt pl s2 rest = .ok s1 := by
            simpa [legacyScan, hstep] using h
          rcases legacyStep_ok_effects lt pl hstep with
            ⟨hl, hs, _, _, _⟩ | ⟨_, _, _, hs2⟩
          · refine ih hnd.2 ?_ ⟨by rw [hl, hs]; exact hi.1, by rw [hl]; exact hi.2⟩ h2
            intro q hq
            rw [hs]
            exact hdisj q (List.mem_cons.mpr (Or.inr hq))
          · subst hs2
            have hna : a ∉ s.logs.map Prod.fst := by
              rw [hi.1]
              exact hdisj (a, b) (List.mem_cons_self (a, b) rest)
            refine ih hnd.2 ?_ ⟨?_, ?_⟩ h2
            · intro q hq
              simp only [List.mem_append, List.mem_singleton]
              push_neg
              refine ⟨hdisj q (List.mem_cons.mpr (Or.inr hq)), ?_⟩
              intro hqa
              exact hnd.1 (hqa ▸ (List.mem_map.mpr ⟨q, hq, rfl⟩))
            · rw [dictInsert_eq_append hna]
              simp [hi.1]
            · intro q hq
              rw [dictInsert_eq_append hna] at hq
              rcases List.mem_append.mp hq with hq1 | hq1
              · exact hi.2 q hq1
              · simp only [List.mem_singleton] at hq1
                subst hq1
                rfl

/-! ## Key-uniqueness of the collected dictionaries -/

theorem foldl_invariant {α β : Type} (P : α → Prop) (f : α → β → α) (l : List β)
    (h : ∀ a b, P a → P (f a b)) {a : α} (h0 : P a) : P (l.foldl f a) := by
  induction l generalizing a with
  | nil => exact h0
  | cons x xs ih => exact ih (h a x h0)

theorem collectSub_ready_units_nodup {c : Collected} {n : String} {u : UnitRec}
    (h : (c.ready_units.map Prod.fst).Nodup) :
    ((collectSub c n u).ready_units.map Prod.fst).Nodup := by
  unfold collectSub
  cases hu : u.agentStatus? with
  | some a => simpa using h
  | none => simpa using nodup_map_fst_dictInsert h n u

theorem collectUnit_ready_units_nodup {c : Collected} {n : String} {u : JujuUnit}
    (h : (c.ready_units.map Prod.fst).Nodup) :
    ((collectUnit c n u).ready_units.map Prod.fst).Nodup := by
  unfold collectUnit
  refine foldl_invariant (fun c2 : Collected => (c2.ready_units.map Prod.fst).Nodup) _ _
    (fun c2 p h2 => collectSub_ready_units_nodup h2) ?_
  cases hu : u.base.agentStatus? with
  | some a => simpa using h
  | none => simpa using nodup_map_fst_dictInsert h n u.base

theorem collect_ready_units_nodup (st : ClusterStatus) :
    ((collect st).ready_units.map Prod.fst).Nodup := by
  unfold collect
  refine foldl_invariant (fun c : Collected => (c.ready_units.map Prod.fst).Nodup) _ _
    ?_ (by simp)
  intro c ps hc
  exact foldl_invariant (fun c2 : Collected => (c2.ready_units.map Prod.fst).Nodup) _ _
    (fun c2 pu h2 => collectUnit_ready_units_nodup h2) hc

/-! ## Lemmas about the leadership check (lines 245-259) -/

/-- The leadership fold from an arbitrary accumulator state. -/
def leaderFold (il : String → Bool) (s : LeaderSt)
    (avs : List (String × Option (List Nat))) : LeaderSt :=
  avs.foldl (fun s p => leaderStep il s p.1 p.2) s

theorem checkLeaders_eq (il : String → Bool) (avs : List (String × Option (List Nat))) :
    checkLeaders il avs = leaderFold il ⟨[], [], []⟩ avs := rfl

theorem leaderFold_cons (il : String → Bool) (s : LeaderSt)
    (p : String × Option (List Nat)) (rest : List (String × Option (List Nat))) :
    leaderFold il s (p :: rest) = leaderFold il (leaderStep il s p.1 p.2) rest := rfl

theorem leaderStep_swl_mono (il : String → Bool) (s : LeaderSt) (n : String)
    (v : Option (List Nat)) :
    s.services_with_leader ⊆ (leaderStep il s n v).services_with_leader := by
  intro a ha
  cases v with
  | none =>
      simp only [leaderStep]
      split_ifs <;> exact ha
  | some w =>
      simp only [leaderStep]
      split_ifs <;> first | exact ha | exact subset_setAdd _ _ ha

theorem leaderFold_swl_mono (il : String → Bool) (s : LeaderSt)
    (avs : List (String × Option (List Nat))) :
    s.services_with_leader ⊆ (leaderFold il s avs).services_with_leader := by
  induction avs generalizing s with
  | nil => exact fun a h => h
  | cons p rest ih =>
      intro a h
      rw [leaderFold_cons]
      exact ih (leaderStep il s p.1 p.2) (leaderStep_swl_mono il s p.1 p.2 h)

theorem leaderStep_queried_cases (il : String → Bool) (s : LeaderSt) (n : String)
    (v : Option (List Nat)) :
    (leaderStep il s n v).queried = s.queried ∨
    ((leaderStep il s n v).queried = s.queried ++ [n] ∧
      ∃ w, v = some w ∧ verGE w [1, 23] = false) := by
  cases v with
  | none =>
      simp only [leaderStep]
      split_ifs <;> exact Or.inl rfl
  | some w =>
      simp only [leaderStep]
      split_ifs with h1 h2 h3
      · exact Or.inl rfl
      · exact Or.inl rfl
      · exact Or.inr ⟨rfl, w, rfl, by simpa using h2⟩
      · exact Or.inr ⟨rfl, w, rfl, by simpa using h2⟩

theorem leaderFold_queried_inv (il : String → Bool) (s : LeaderSt)
    {avs : List (String × Option (List Nat))} {n : String}
    (h : n ∈ (leaderFold il s avs).queried) :
    n ∈ s.queried ∨ ∃ v, (n, some v) ∈ avs ∧ verGE v [1, 23] = false := by
  induction avs generalizing s with
  | nil => exact Or.inl h
  | cons p rest ih =>
      rw [leaderFold_cons] at h
      rcases ih (leaderStep il s p.1 p.2) h with h1 | h1
      · rcases leaderStep_queried_cases il s p.1 p.2 with h2 | ⟨h2, w, hw1, hw2⟩
        · exact Or.inl (h2 ▸ h1)
        · rw [h2] at h1
          rcases List.mem_append.mp h1 with h3 | h3
          · exact Or.inl h3
          · simp only [List.mem_singleton] at h3
            refine Or.inr ⟨w, ?_, hw2⟩
            have hp : p = (n, some w) := by
              rw [h3]
              rw [← hw1]
            rw [hp]
            exact List.mem_cons_self (n, some w) rest
      · obtain ⟨v, hv1, hv2⟩ := h1
        exact Or.inr ⟨v, List.mem_cons.mpr (Or.inr hv1), hv2⟩

theorem leaderFold_swl_of_ver (il : String → Bool) (s : LeaderSt)
    {avs : List (String × Option (List Nat))} {n : String} {v : List Nat}
    (hm : (n, some v) ∈ avs) (hv : verGE v [1, 23] = true) :
    svcName n ∈ (leaderFold il s avs).services_with_leader := by
  induction avs generalizing s with
  | nil => cases hm
  | cons p rest ih =>
      rcases List.mem_cons.mp hm with heq | hmem
      · rw [leaderFold_cons]
        refine leaderFold_swl_mono il _ rest ?_
        rw [← heq]
        simp only [leaderStep]
        split_ifs with h1 h2 h3 <;>
          first
            | exact h1
            | exact self_mem_setAdd _ _
            | exact absurd hv h2
      · rw [leaderFold_cons]
        exact ih (leaderStep il s p.1 p.2) hmem

theorem leaderFold_led_only_by_query (il : String → Bool) {sname : String}
    {avs : List (String × Option (List Nat))} (s : LeaderSt)
    (hall : ∀ p ∈ avs, svcName p.1 = sname →
      ∃ v, p.2 = some v ∧ verGE v [1, 23] = false)
    (hinv : sname ∈ s.services_with_leader →
      ∃ u, u ∈ s.queried ∧ svcName u = sname ∧ il u = true)
    (hmem : sname ∈ (leaderFold il s avs).services_with_leader) :
    ∃ u, u ∈ (leaderFold il s avs).queried ∧ svcName u = sname ∧ il u = true := by
  induction avs generalizing s with
  | nil => exact hinv hmem
  | cons p rest ih =>
      rw [leaderFold_cons] at hmem ⊢
      refine ih (leaderStep il s p.1 p.2)
        (fun q hq hsvc => hall q (List.mem_cons.mpr (Or.inr hq)) hsvc) ?_ hmem
      intro hsw
      obtain ⟨a, b⟩ := p
      by_cases hsvc : svcName a = sname
      · obtain ⟨v, hv1, hv2⟩ := hall (a, b) (List.mem_cons_self (a, b) rest) hsvc
        simp only at hv1
        subst hv1
        revert hsw
        simp only [leaderStep]
        split_ifs with h1 h2 h3
        · exact fun hsw => hinv hsw
        · exact fun hsw => absurd h2 (by simp [hv2])
        · exact fun hsw => ⟨a, by simp, hsvc, h3⟩
        · intro hsw
          obtain ⟨u, hu1, hu2, hu3⟩ := hinv hsw
          exact ⟨u, by simp [hu1], hu2, hu3⟩
      · revert hsw
        cases b with
        | none =>
            simp only [leaderStep]
            split_ifs <;> exact fun hsw => hinv hsw
        | some v =>
            simp only [leaderStep]
            split_ifs with h1 h2 h3
            · exact fun hsw => hinv hsw
            · intro hsw
              rcases mem_setAdd.mp hsw with h4 | h4
              · exact absurd h4.symm hsvc
              · exact hinv h4
            · intro hsw
              rcases mem_setAdd.mp hsw with h4 | h4
              · exact absurd h4.symm hsvc
              · obtain ⟨u, hu1, hu2, hu3⟩ := hinv h4
                exact ⟨u, by simp [hu1], hu2, hu3⟩
            · intro hsw
              obtain ⟨u, hu1, hu2, hu3⟩ := hinv hsw
              exact ⟨u, by simp [hu1], hu2, hu3⟩

/-! ## Derived observations of the poll loop -/

/-- Every cycle of the given run segment evaluates without a raise and with
a ready verdict (the debounce also never fires success inside the segment). -/
def allReadyFrom : LoopState → List CycleEnv → Bool
  | _, [] => true
  | st, e :: rest =>
      match evalCycle e st.prev_logs st.logging_reset with
      | .error _ => false
      | .ok out =>
          out.ready &&
            match stepDebounce out.ready st.ready_since e.now with
            | none => false
            | some rs => allReadyFrom ⟨out.logs, rs, out.logging_reset⟩ rest

/-- The per-cycle reset_logging invocation flags along a run, in cycle
order, up to and including the cycle the loop stops at (fatal or success). -/
def resetFlags : LoopState → List CycleEnv → List Bool
  | _, [] => []
  | st, e :: rest =>
      match evalCycle e st.prev_logs st.logging_reset with
      | .error (_, s) => [s.resetCalled]
      | .ok out =>
          match stepDebounce out.ready st.ready_since e.now with
          | none => [out.resetCalled]
          | some rs => out.resetCalled :: resetFlags ⟨out.logs, rs, out.logging_reset⟩ rest

/-- The per-cycle lists of sniffed legacy units along a run, in cycle
order, up to and including the cycle the loop stops at. -/
def sniffFlags : LoopState → List CycleEnv → List (List String)
  | _, [] => []
  | st, e :: rest =>
      match evalCycle e st.prev_logs st.logging_reset with
      | .error (_, s) => [s.sniffed]
      | .ok out =>
          match stepDebounce out.ready st.ready_since e.now with
          | none => [out.sniffed]
          | some rs => out.sniffed :: sniffFlags ⟨out.logs, rs, out.logging_reset⟩ rest

/-- Mark the position of the first nonempty entry: true there, false
everywhere else. -/
def firstMark : List (List String) → List Bool
  | [] => []
  | l :: ls => if l.isEmpty then false :: firstMark ls else true :: ls.map (fun _ => false)

/-! ## Lemmas about the debounce decision (lines 261-275) -/

theorem stepDebounce_none_iff (r : Bool) (rs : Option Nat) (now : Nat) :
    stepDebounce r rs now = none ↔
      r = true ∧ ∃ t, rs = some t ∧ t + IDLE_CONFIRMATION < now := by
  cases r with
  | false => simp [stepDebounce]
  | true =>
      cases rs with
      | none => simp [stepDebounce]
      | some t =>
          by_cases h : t + IDLE_CONFIRMATION < now <;> simp [stepDebounce, h]

theorem stepDebounce_not_ready (rs : Option Nat) (now : Nat) :
    stepDebounce false rs now = some none := rfl

theorem stepDebounce_first_ready (now : Nat) :
    stepDebounce true none now = some (some now) := rfl

theorem stepDebounce_some_inv {r : Bool} {rs rs2 : Option Nat} {now : Nat}
    (h : stepDebounce r rs now = some rs2) :
    (r = false ∧ rs2 = none) ∨
    (r = true ∧ rs = none ∧ rs2 = some now) ∨
    (r = true ∧ ∃ t, rs = some t ∧ rs2 = some t ∧
      ¬(t + IDLE_CONFIRMATION < now)) := by
  cases r with
  | false =>
      left
      refine ⟨rfl, ?_⟩
      rw [stepDebounce_not_ready] at h
      injection h with h2
      exact h2.symm
  | true =>
      cases rs with
      | none =>
          right
          left
          rw [stepDebounce_first_ready] at h
          injection h with h2
          exact ⟨rfl, rfl, h2.symm⟩
      | some t =>
          right
          right
          refine ⟨rfl, t, rfl, ?_⟩
          by_cases hlt : t + IDLE_CONFIRMATION < now
          · simp [stepDebounce, hlt] at h
          · refine ⟨?_, hlt⟩
            simp [stepDebounce, hlt] at h
            exact h.symm

/-! ## Lemmas about the poll loop -/

theorem waitLoop_nil (st : LoopState) : waitLoop st [] = .ranOut st := rfl

theorem waitLoop_success_iff (envs : List CycleEnv) (st : LoopState) :
    (∃ rs au, waitLoop st envs = .success rs au) ↔
    ∃ pre e post st1 out t, envs = pre ++ e :: post ∧
      waitLoop st pre = .ranOut st1 ∧
      evalCycle e st1.prev_logs st1.logging_reset = .ok out ∧
      out.ready = true ∧ st1.ready_since = some t ∧
      t + IDLE_CONFIRMATION < e.now := by
  induction envs generalizing st with
  | nil =>
      constructor
      · rintro ⟨rs, au, h⟩
        simp [waitLoop] at h
      · rintro ⟨pre, e, post, st1, out, t, heq, h2⟩
        exact absurd heq (by cases pre <;> simp)
  | cons e rest ih =>
      cases hev : evalCycle e st.prev_logs st.logging_reset with
      | error e2 =>
          obtain ⟨c2, s2⟩ := e2
          constructor
          · rintro ⟨rs, au, h⟩
            simp [waitLoop, hev] at h
          · rintro ⟨pre, e3, post, st1, out, t, heq, hpre, hok, hr, hrs, hlt⟩
            cases pre with
            | nil =>
                simp only [List.nil_append, List.cons.injEq] at heq
                obtain ⟨rfl, rfl⟩ := heq
                rw [waitLoop_nil] at hpre
                injection hpre with h5
                subst h5
                rw [hev] at hok
                cases hok
            | cons f pre2 =>
                simp only [List.cons_append, List.cons.injEq] at heq
                obtain ⟨rfl, hrest⟩ := heq
                simp [waitLoop, hev] at hpre
      | ok out =>
          cases hstep : stepDebounce out.ready st.ready_since e.now with
          | none =>
              obtain ⟨hr, t, hrs, hlt⟩ :=
                (stepDebounce_none_iff out.ready st.ready_since e.now).mp hstep
              constructor
              · intro _
                exact ⟨[], e, rest, st, out, t, rfl, rfl, hev, hr, hrs, hlt⟩
              · intro _
                exact ⟨st.ready_since, out.all_units, by simp [waitLoop, hev, hstep]⟩
          | some rs2 =>
              have hnext : waitLoop st (e :: rest) =
                  waitLoop ⟨out.logs, rs2, out.logging_reset⟩ rest := by
                simp [waitLoop, hev, hstep]
              constructor
              · rintro ⟨rs, au, h⟩
                rw [hnext] at h
                obtain ⟨pre, e3, post, st1, out3, t, heq, hpre, hok, hr, hrs, hlt⟩ :=
                  (ih ⟨out.logs, rs2, out.logging_reset⟩).mp ⟨rs, au, h⟩
                refine ⟨e :: pre, e3, post, st1, out3, t, by rw [heq, List.cons_append],
                  ?_, hok, hr, hrs, hlt⟩
                calc waitLoop st (e :: pre)
                    = waitLoop ⟨out.logs, rs2, out.logging_reset⟩ pre := by
                      simp [waitLoop, hev, hstep]
                  _ = .ranOut st1 := hpre
              · rintro ⟨pre, e3, post, st1, out3, t, heq, hpre, hok, hr, hrs, hlt⟩
                cases pre with
                | nil =>
                    simp only [List.nil_append, List.cons.injEq] at heq
                    obtain ⟨rfl, rfl⟩ := heq
                    rw [waitLoop_nil] at hpre
                    injection hpre with h5
                    subst h5
                    rw [hev] at hok
                    injection hok with h6
                    subst h6
                    rw [(stepDebounce_none_iff out.ready st.ready_since e.now).mpr
                      ⟨hr, t, hrs, hlt⟩] at hstep
                    cases hstep
                | cons f pre2 =>
                    simp only [List.cons_append, List.cons.injEq] at heq
                    obtain ⟨rfl, hrest⟩ := heq
                    have hpre2 : waitLoop ⟨out.logs, rs2, out.logging_reset⟩ pre2 =
                        .ranOut st1 := by
                      calc waitLoop ⟨out.logs, rs2, out.logging_reset⟩ pre2
                          = waitLoop st (e :: pre2) := by simp [waitLoop, hev, hstep]
                        _ = .ranOut st1 := hpre
                    rw [hnext]
                    exact (ih ⟨out.logs, rs2, out.logging_reset⟩).mpr
                      ⟨pre2, e3, post, st1, out3, t, hrest, hpre2, hok, hr, hrs, hlt⟩

theorem waitLoop_origin (envs : List CycleEnv) (st st1 : LoopState) (t : Nat)
    (hrun : waitLoop st envs = .ranOut st1) (ht : st1.ready_since = some t) :
    (st.ready_since = some t ∧ allReadyFrom st envs = true) ∨
    (∃ pre e post st2 out, envs = pre ++ e :: post ∧
      waitLoop st pre = .ranOut st2 ∧ st2.ready_since = none ∧
      evalCycle e st2.prev_logs st2.logging_reset = .ok out ∧
      out.ready = true ∧ e.now = t ∧
      allReadyFrom ⟨out.logs, some t, out.logging_reset⟩ post = true) := by
  induction envs generalizing st with
  | nil =>
      rw [waitLoop_nil] at hrun
      injection hrun with h2
      subst h2
      exact Or.inl ⟨ht, rfl⟩
  | cons e rest ih =>
      cases hev : evalCycle e st.prev_logs st.logging_reset with
      | error e2 =>
          obtain ⟨c2, s2⟩ := e2
          simp [waitLoop, hev] at hrun
      | ok out =>
          cases hstep : stepDebounce out.ready st.ready_since e.now with
          | none => simp [waitLoop, hev, hstep] at hrun
          | some rs2 =>
              have hrun2 : waitLoop ⟨out.logs, rs2, out.logging_reset⟩ rest =
                  .ranOut st1 := by
                calc waitLoop ⟨out.logs, rs2, out.logging_reset⟩ rest
                    = waitLoop st (e :: rest) := by simp [waitLoop, hev, hstep]
                  _ = .ranOut st1 := hrun
              rcases ih ⟨out.logs, rs2, out.logging_reset⟩ hrun2 with ⟨h1, h2⟩ |
                ⟨pre, e3, post, st2, out3, heq, hpre, hn, hok, hr, hnow, hall⟩
              · have h1a : rs2 = some t := h1
                rcases stepDebounce_some_inv hstep with ⟨hrf, hrs2⟩ |
                  ⟨hrt, hrsn, hrs2⟩ | ⟨hrt, u, hrsu, hrs2, hnlt⟩
                · rw [hrs2] at h1a
                  cases h1a
                · rw [hrs2] at h1a
                  injection h1a with h3
                  right
                  refine ⟨[], e, rest, st, out, rfl, waitLoop_nil st, hrsn, hev, hrt, h3, ?_⟩
                  rw [hrs2, h3] at h2
                  exact h2
                · rw [hrs2] at h1a
                  injection h1a with h3
                  subst h3
                  left
                  refine ⟨hrsu, ?_⟩
                  have hstep2 : stepDebounce true st.ready_since e.now = some rs2 := by
                    rw [← hrt]
                    exact hstep
                  simp only [allReadyFrom, hev, hrt, hstep2, Bool.true_and]
                  exact h2
              · right
                refine ⟨e :: pre, e3, post, st2, out3, by rw [heq, List.cons_append],
                  ?_, hn, hok, hr, hnow, hall⟩
                calc waitLoop st (e :: pre)
                    = waitLoop ⟨out.logs, rs2, out.logging_reset⟩ pre := by
                      simp [waitLoop, hev, hstep]
                  _ = .ranOut st2 := hpre

/-! ## Whole-cycle lemmas -/

/-- The sniffing state the legacy loop starts from: the ready flag after
the dying-services scan (lines 173-176) and the agent-status scan (lines
205-210), an empty fresh logs dict, the carried logging_reset flag, and no
reset or sniff performed yet. -/
def initSniffSt (env : CycleEnv) (lr : Bool) : SniffSt :=
  ⟨agentStatusScan
      (dyingServicesScan true (sortByKey (env.status.services?.getD [])))
      (sortByKey (collect env.status).agent_status),
    [], lr, false, []⟩

theorem evalCycle_def (env : CycleEnv) (pl : List (String × String)) (lr : Bool) :
    evalCycle env pl lr =
      match legacyScan env.logTail pl (initSniffSt env lr)
          (sortByKey (collect env.status).ready_units) with
      | .error e => .error e
      | .ok s =>
          if s.ready then
            .ok ⟨leadershipReady (checkLeaders env.isLeader (collect env.status).agent_version),
                 (collect env.status).all_units, s.logs, s.logging_reset, s.resetCalled,
                 s.sniffed, (checkLeaders env.isLeader (collect env.status).agent_version).queried⟩
          else
            .ok ⟨false, (collect env.status).all_units, s.logs, s.logging_reset,
                 s.resetCalled, s.sniffed, []⟩ := rfl

theorem evalCycle_ok_inv {env : CycleEnv} {pl : List (String × String)} {lr : Bool}
    {out : CycleOut} (h : evalCycle env pl lr = .ok out) :
    ∃ s, legacyScan env.logTail pl (initSniffSt env lr)
        (sortByKey (collect env.status).ready_units) = .ok s ∧
      out.logs = s.logs ∧ out.logging_reset = s.logging_reset ∧
      out.resetCalled = s.resetCalled ∧ out.sniffed = s.sniffed ∧
      out.all_units = (collect env.status).all_units ∧
      (s.ready = false → out.ready = false ∧ out.queried = []) ∧
      (s.ready = true →
        out.ready = leadershipReady (checkLeaders env.isLeader (collect env.status).agent_version) ∧
        out.queried = (checkLeaders env.isLeader (collect env.status).agent_version).queried) := by
  rw [evalCycle_def] at h
  split at h
  · cases h
  · rename_i s heq
    by_cases hr : s.ready = true
    · rw [if_pos hr] at h
      injection h with h2
      subst h2
      refine ⟨s, heq, rfl, rfl, rfl, rfl, rfl, ?_, fun _ => ⟨rfl, rfl⟩⟩
      intro hf
      rw [hf] at hr
      cases hr
    · rw [if_neg hr] at h
      injection h with h2
      subst h2
      exact ⟨s, heq, rfl, rfl, rfl, rfl, rfl, fun _ => ⟨rfl, rfl⟩, fun ht => absurd ht hr⟩

theorem evalCycle_error_inv {env : CycleEnv} {pl : List (String × String)} {lr : Bool}
    {c : Nat} {s1 : SniffSt} (h : evalCycle env pl lr = .error (c, s1)) :
    legacyScan env.logTail pl (initSniffSt env lr)
        (sortByKey (collect env.status).ready_units) = .error (c, s1) ∧
    c = 1 ∧ ∃ n u, (n, u) ∈ (collect env.status).ready_units ∧
      isDyingLife u.life? = false ∧ u.agentState? = some "error" := by
  rw [evalCycle_def] at h
  split at h
  · rename_i e2 heq
    obtain ⟨c2, s2⟩ := e2
    injection h with h2
    have hc : c2 = c := congrArg Prod.fst h2
    have hs : s2 = s1 := congrArg Prod.snd h2
    subst hc
    subst hs
    obtain ⟨hc1, n, u, hm, hd, he⟩ := legacyScan_error_inv env.logTail pl heq
    exact ⟨heq, hc1, n, u, mem_sortByKey.mp hm, hd, he⟩
  · rename_i s heq
    split_ifs at h <;> cases h

theorem evalCycle_error_of_mem {env : CycleEnv} {pl : List (String × String)} {lr : Bool}
    {n : String} {u : UnitRec} (hm : (n, u) ∈ (collect env.status).ready_units)
    (hd : isDyingLife u.life? = false) (he : u.agentState? = some "error") :
    ∃ s1, evalCycle env pl lr = .error (1, s1) := by
  obtain ⟨s1, h1⟩ := legacyScan_error_of_mem env.logTail pl
    (s := initSniffSt env lr) (mem_sortByKey.mpr hm) hd he
  refine ⟨s1, ?_⟩
  rw [evalCycle_def, h1]

theorem evalCycle_ready_false_of_agent_status {env : CycleEnv}
    {pl : List (String × String)} {lr : Bool} {out : CycleOut}
    {na : String} {a : AgentStatus}
    (hm : (na, a) ∈ (collect env.status).agent_status) (hne : a.current ≠ "idle")
    (h : evalCycle env pl lr = .ok out) : out.ready = false := by
  have hr0 : (initSniffSt env lr).ready = false :=
    agentStatusScan_false_of_mem (mem_sortByKey.mpr hm) hne
  obtain ⟨s, hscan, _, _, _, _, _, hfalse, _⟩ := evalCycle_ok_inv h
  rcases legacyScan_of_ready_false env.logTail pl
      (s := initSniffSt env lr) (sortByKey (collect env.status).ready_units) hr0 with
    h1 | h1
  · rw [h1] at hscan
    injection hscan with h2
    exact (hfalse (by rw [← h2]; exact hr0)).1
  · rw [h1] at hscan
    cases hscan

theorem evalCycle_logs_spec {env : CycleEnv} {pl : List (String × String)} {lr : Bool}
    {out : CycleOut} (h : evalCycle env pl lr = .ok out) :
    out.logs.map Prod.fst = out.sniffed ∧ ∀ p ∈ out.logs, p.2 = env.logTail p.1 := by
  obtain ⟨s, hscan, hlogs, _, _, hsniffed, _, _, _⟩ := evalCycle_ok_inv h
  have hinv := legacyScan_logsInv env.logTail pl
    (nodup_map_fst_sortByKey (collect_ready_units_nodup env.status))
    (fun p hp => by simp [initSniffSt]) ⟨rfl, by simp [initSniffSt]⟩ hscan
  rw [hlogs, hsniffed]
  exact hinv

theorem evalCycle_reset_spec (env : CycleEnv) (pl : List (String × String)) (lr : Bool) :
    (∀ out, evalCycle env pl lr = .ok out →
      out.resetCalled = (!lr && !out.sniffed.isEmpty) ∧
      out.logging_reset = (lr || !out.sniffed.isEmpty)) ∧
    (∀ c s1, evalCycle env pl lr = .error (c, s1) →
      s1.resetCalled = (!lr && !s1.sniffed.isEmpty) ∧
      s1.logging_reset = (lr || !s1.sniffed.isEmpty)) := by
  have hinit : resetInv lr (initSniffSt env lr) := ⟨by simp [initSniffSt], by simp [initSniffSt]⟩
  constructor
  · intro out h
    obtain ⟨s, hscan, _, hlr2, hrc, hsniffed, _, _, _⟩ := evalCycle_ok_inv h
    have hinv := (legacyScan_resetInv env.logTail pl hinit).1 s hscan
    rw [hrc, hlr2, hsniffed]
    exact hinv
  · intro c s1 h
    obtain ⟨hscan, _, _⟩ := evalCycle_error_inv h
    exact (legacyScan_resetInv env.logTail pl hinit).2 c s1 hscan

/-! ## The one-time logging reset across a whole run -/

theorem resetFlags_of_reset (envs : List CycleEnv) (st : LoopState)
    (h : st.logging_reset = true) :
    resetFlags st envs = (sniffFlags st envs).map (fun _ => false) := by
  induction envs generalizing st with
  | nil => rfl
  | cons e rest ih =>
      cases hev : evalCycle e st.prev_logs st.logging_reset with
      | error e2 =>
          obtain ⟨c2, s2⟩ := e2
          have hspec := (evalCycle_reset_spec e st.prev_logs st.logging_reset).2 c2 s2 hev
          have hrc : s2.resetCalled = false := by rw [hspec.1, h]; simp
          simp [resetFlags, sniffFlags, hev, hrc]
      | ok out =>
          have hspec := (evalCycle_reset_spec e st.prev_logs st.logging_reset).1 out hev
          have hrc : out.resetCalled = false := by rw [hspec.1, h]; simp
          have hlr2 : out.logging_reset = true := by rw [hspec.2, h]; simp
          cases hstep : stepDebounce out.ready st.ready_since e.now with
          | none => simp [resetFlags, sniffFlags, hev, hstep, hrc]
          | some rs =>
              simp only [resetFlags, sniffFlags, hev, hstep, List.map_cons, hrc]
              simp only [List.cons.injEq]
              exact ⟨trivial, ih ⟨out.logs, rs, out.logging_reset⟩ hlr2⟩

theorem resetFlags_firstMark (envs : List CycleEnv) (st : LoopState)
    (h : st.logging_reset = false) :
    resetFlags st envs = firstMark (sniffFlags st envs) := by
  induction envs generalizing st with
  | nil => rfl
  | cons e rest ih =>
      cases hev : evalCycle e st.prev_logs st.logging_reset with
      | error e2 =>
          obtain ⟨c2, s2⟩ := e2
          have hspec := (evalCycle_reset_spec e st.prev_logs st.logging_reset).2 c2 s2 hev
          have hrc : s2.resetCalled = !s2.sniffed.isEmpty := by rw [hspec.1, h]; simp
          cases hie : s2.sniffed.isEmpty <;>
            simp [resetFlags, sniffFlags, hev, firstMark, hie, hrc]
      | ok out =>
          have hspec := (evalCycle_reset_spec e st.prev_logs st.logging_reset).1 out hev
          have hrc : out.resetCalled = !out.sniffed.isEmpty := by rw [hspec.1, h]; simp
          have hlr2 : out.logging_reset = !out.sniffed.isEmpty := by rw [hspec.2, h]; simp
          cases hstep : stepDebounce out.ready st.ready_since e.now with
          | none =>
              cases hie : out.sniffed.isEmpty <;>
                simp [resetFlags, sniffFlags, hev, hstep, firstMark, hie, hrc]
          | some rs =>
              cases hie : out.sniffed.isEmpty with
              | false =>
                  have hall := resetFlags_of_reset rest ⟨out.logs, rs, out.logging_reset⟩
                    (by rw [hlr2, hie]; rfl)
                  simp only [resetFlags, sniffFlags, hev, hstep, firstMark, hrc, hie,
                    Bool.not_false, List.isEmpty_eq_true]
                  simp only [List.isEmpty_eq_false] at hie
                  simp [hie, hall]
              | true =>
                  have hnext := ih ⟨out.logs, rs, out.logging_reset⟩ (by rw [hlr2, hie]; rfl)
                  simp only [resetFlags, sniffFlags, hev, hstep, firstMark, hrc, hie]
                  simp [hnext]

theorem waitLoop_cons_ok {st : LoopState} {e : CycleEnv} {out : CycleOut}
    {rs : Option Nat} (rest : List CycleEnv)
    (hev : evalCycle e st.prev_logs st.logging_reset = .ok out)
    (hstep : stepDebounce out.ready st.ready_since e.now = some rs) :
    waitLoop st (e :: rest) = waitLoop ⟨out.logs, rs, out.logging_reset⟩ rest := by
  simp [waitLoop, hev, hstep]

theorem waitLoop_cons_success {st : LoopState} {e : CycleEnv} {out : CycleOut}
    (rest : List CycleEnv)
    (hev : evalCycle e st.prev_logs st.logging_reset = .ok out)
    (hstep : stepDebounce out.ready st.ready_since e.now = none) :
    waitLoop st (e :: rest) = .success st.ready_since out.all_units := by
  simp [waitLoop, hev, hstep]

theorem waitLoop_cons_ok2 (pl : List (String × String)) (rs0 : Option Nat) (lr : Bool)
    (e : CycleEnv) (rest : List CycleEnv) (out : CycleOut) (rs : Option Nat)
    (hev : evalCycle e pl lr = .ok out)
    (hstep : stepDebounce out.ready rs0 e.now = some rs) :
    waitLoop ⟨pl, rs0, lr⟩ (e :: rest) = waitLoop ⟨out.logs, rs, out.logging_reset⟩ rest := by
  simp [waitLoop, hev, hstep]

theorem waitLoop_cons_success2 (pl : List (String × String)) (rs0 : Option Nat) (lr : Bool)
    (e : CycleEnv) (rest : List CycleEnv) (out : CycleOut)
    (hev : evalCycle e pl lr = .ok out)
    (hstep : stepDebounce out.ready rs0 e.now = none) :
    waitLoop ⟨pl, rs0, lr⟩ (e :: rest) = .success rs0 out.all_units := by
  simp [waitLoop, hev, hstep]

theorem firstMark_count (ls : List (List String)) : (firstMark ls).count true ≤ 1 := by
  induction ls with
  | nil => simp [firstMark]
  | cons l ls2 ih =>
      unfold firstMark
      split_ifs
      · simpa [List.count_cons] using ih
      · have hz : (List.replicate ls2.length false).count true = 0 := by
          rw [List.count_eq_zero]
          intro hmem
          simp at hmem
        simp [List.count_cons, hz]

/-! ## Concrete inputs -/

/-- A status document with no services key at all. -/
def emptyStatus : ClusterStatus := ⟨none⟩

/-- An empty-cluster cycle at a given wall-clock second. -/
def emptyEnv (t : Nat) : CycleEnv := ⟨emptyStatus, fun _ => "", fun _ => false, t⟩

/-- Five empty-cluster cycles at the 4-second poll interval. -/
def emptyTrace5 (t : Nat) : List CycleEnv :=
  [emptyEnv t, emptyEnv (t + 4), emptyEnv (t + 8), emptyEnv (t + 12), emptyEnv (t + 16)]

theorem evalCycle_emptyServices (env : CycleEnv) (pl : List (String × String)) (lr : Bool)
    (h : env.status.services?.getD [] = []) :
    evalCycle env pl lr = .ok ⟨true, [], [], lr, false, [], []⟩ := by
  have hc : collect env.status = ⟨[], [], [], []⟩ := by
    unfold collect
    rw [h]
    rfl
  rw [evalCycle_def]
  simp only [initSniffSt, hc, h]
  rfl

theorem waitLoop_emptyTrace5 (t : Nat) :
    waitLoop initState (emptyTrace5 t) = .success (some t) [] := by
  have he : ∀ (x : Nat) (pl : List (String × String)) (lr : Bool),
      evalCycle (emptyEnv x) pl lr = .ok ⟨true, [], [], lr, false, [], []⟩ :=
    fun x pl lr => evalCycle_emptyServices (emptyEnv x) pl lr rfl
  have hmid : ∀ d rest2, d < 15 →
      waitLoop ⟨[], some t, false⟩ (emptyEnv (t + d) :: rest2) =
        waitLoop ⟨[], some t, false⟩ rest2 := by
    intro d rest2 hd
    have hstep : stepDebounce true (some t) (t + d) = some (some t) := by
      have hnot : ¬(t + IDLE_CONFIRMATION < t + d) := by
        simp only [IDLE_CONFIRMATION]
        omega
      simp [stepDebounce, hnot]
    exact waitLoop_cons_ok2 [] (some t) false (emptyEnv (t + d)) rest2
      ⟨true, [], [], false, false, [], []⟩ (some t) (he (t + d) [] false) hstep
  have hlast : waitLoop ⟨[], some t, false⟩ [emptyEnv (t + 16)] = .success (some t) [] := by
    have hstep : stepDebounce true (some t) (t + 16) = none := by
      have hlt : t + IDLE_CONFIRMATION < t + 16 := by
        simp only [IDLE_CONFIRMATION]
        omega
      simp [stepDebounce, hlt]
    exact waitLoop_cons_success2 [] (some t) false (emptyEnv (t + 16)) []
      ⟨true, [], [], false, false, [], []⟩ (he (t + 16) [] false) hstep
  have h1 : waitLoop initState (emptyTrace5 t) =
      waitLoop ⟨[], some t, false⟩
        [emptyEnv (t + 4), emptyEnv (t + 8), emptyEnv (t + 12), emptyEnv (t + 16)] :=
    waitLoop_cons_ok2 [] none false (emptyEnv t)
      [emptyEnv (t + 4), emptyEnv (t + 8), emptyEnv (t + 12), emptyEnv (t + 16)]
      ⟨true, [], [], false, false, [], []⟩ (some t) (he t [] false) rfl
  rw [h1, hmid 4 _ (by omega), hmid 8 _ (by omega), hmid 12 _ (by omega), hlast]

/-- A modern idle subordinate record with agent-version 2.0. -/
def subRecC2 : UnitRec := ⟨some ⟨"idle", "ts"⟩, none, none, none, some [2, 0]⟩

/-- A modern idle top-level unit carrying the subordinate sub/0. -/
def unitC2 : JujuUnit :=
  ⟨⟨some ⟨"idle", "ts"⟩, none, none, none, some [2, 0]⟩, some [("sub/0", subRecC2)]⟩

/-- A status with one service s whose unit s/0 has a subordinate sub/0. -/
def statusC2 : ClusterStatus := ⟨some [("s", ⟨none, some [("s/0", unitC2)]⟩)]⟩

/-- A cycle around statusC2. -/
def envC2 : CycleEnv := ⟨statusC2, fun _ => "", fun _ => false, 0⟩

/-- A legacy unit record that is both dying and in agent-state error. -/
def dyingErrRec : UnitRec := ⟨none, some "dying", some "error", some "hook failed", none⟩

/-- A status whose only unit is the dying-and-error legacy unit u/0. -/
def statusC3 : ClusterStatus := ⟨some [("u", ⟨none, some [("u/0", ⟨dyingErrRec, none⟩)]⟩)]⟩

/-- A cycle around statusC3. -/
def envC3 : CycleEnv := ⟨statusC3, fun _ => "", fun _ => false, 0⟩

/-- A legacy unit record in agent-state error and not dying. -/
def errRecW : UnitRec := ⟨none, none, some "error", some "hook failed", none⟩

/-- A status whose only unit is the plain error legacy unit u/0. -/
def statusC3w : ClusterStatus := ⟨some [("u", ⟨none, some [("u/0", ⟨errRecW, none⟩)]⟩)]⟩

/-- A cycle around statusC3w. -/
def envC3w : CycleEnv := ⟨statusC3w, fun _ => "", fun _ => false, 0⟩

/-- A modern unit record currently executing a hook. -/
def busyRec : UnitRec := ⟨some ⟨"executing", "ts"⟩, none, none, none, some [2, 0]⟩

/-- A status whose only unit exposes agent-status current executing. -/
def statusC6 : ClusterStatus := ⟨some [("m", ⟨none, some [("m/0", ⟨busyRec, none⟩)]⟩)]⟩

/-- A cycle around statusC6. -/
def envC6 : CycleEnv := ⟨statusC6, fun _ => "", fun _ => false, 0⟩

/-- A started legacy unit record at agent-version 1.22.0. -/
def startedRecW : UnitRec := ⟨none, none, some "started", none, some [1, 22, 0]⟩

/-- A status whose only unit is the started legacy unit u/0. -/
def statusLeg : ClusterStatus := ⟨some [("u", ⟨none, some [("u/0", ⟨startedRecW, none⟩)]⟩)]⟩

/-- A cycle around statusLeg whose log-tail oracle returns tail and whose
leadership oracle answers true. -/
def envLeg : CycleEnv := ⟨statusLeg, fun _ => "tail", fun _ => true, 0⟩

/-- Two empty-cluster cycles at seconds 0 and 15: the second cycle falls
exactly at ready_since + 15 seconds. -/
def traceC1 : List CycleEnv := [emptyEnv 0, emptyEnv 15]

/-- A leadership oracle answering true exactly for unit b/0. -/
def ilW : String → Bool := fun u => decide (u = "b/0")

/-- An agent_version table with a 1.23.0 unit of service a and a 1.22.0
unit of service b. -/
def avsW : List (String × Option (List Nat)) :=
  [("a/0", some [1, 23, 0]), ("b/0", some [1, 22, 0])]

/-- A ready sniffing state with empty logs. -/
def sW : SniffSt := ⟨true, [], false, false, []⟩

/-- A not-ready sniffing state with empty logs. -/
def sWF : SniffSt := ⟨false, [], false, false, []⟩

/-- A log-tail oracle returning the line x for every unit. -/
def ltW : String → String := fun _ => "x"

/-- The debounce success condition exactly as the claim words it: the
current time is at or past ready_since plus 15 seconds (non-strict
threshold), on a ready cycle whose ready_since was set earlier. -/
def claimC1SuccessCondition (envs : List CycleEnv) (st : LoopState) : Prop :=
  ∃ pre e post st1 out t, envs = pre ++ e :: post ∧
    waitLoop st pre = .ranOut st1 ∧
    evalCycle e st1.prev_logs st1.logging_reset = .ok out ∧
    out.ready = true ∧ st1.ready_since = some t ∧
    t + IDLE_CONFIRMATION ≤ e.now

/-! ## Claim theorems -/

/-- C1 counterexample: on the two-cycle empty-cluster trace with clock
readings 0 and 15, the second cycle is ready, ready_since was set to 0 on
the earlier ready cycle with no intervening not-ready cycle, and the
current time 15 is at (hence at-or-past) ready_since + 15; the claim
therefore demands success, but the loop does not return success there: the
code requires ready_since + 15 to be strictly before the current time
(line 269), so the run ends still polling. -/
theorem c1_counterexample :
    claimC1SuccessCondition traceC1 initState ∧
    waitLoop initState traceC1 = .ranOut ⟨[], some 0, false⟩ := by
  constructor
  · refine ⟨[emptyEnv 0], emptyEnv 15, [], ⟨[], some 0, false⟩,
      ⟨true, [], [], false, false, [], []⟩, 0, rfl, ?_, ?_, rfl, rfl, ?_⟩
    · rfl
    · rfl
    · decide
  · rfl

/-- C1 (amended: the time threshold is strict, now > ready_since + 15
rather than at-or-past): the poll loop returns success exactly on a cycle
whose readiness verdict is ready, whose ready_since was set on an earlier
ready cycle with every cycle since then also ready, and for which the
current time is strictly past ready_since + IDLE_CONFIRMATION; every
not-ready verdict clears ready_since. -/
theorem c1_debounce_success_characterization :
    (∀ envs (st : LoopState), (∃ rs au, waitLoop st envs = .success rs au) ↔
      ∃ pre e post st1 out t, envs = pre ++ e :: post ∧
        waitLoop st pre = .ranOut st1 ∧
        evalCycle e st1.prev_logs st1.logging_reset = .ok out ∧
        out.ready = true ∧ st1.ready_since = some t ∧
        t + IDLE_CONFIRMATION < e.now) ∧
    (∀ envs (st st1 : LoopState) t, st.ready_since = none →
      waitLoop st envs = .ranOut st1 → st1.ready_since = some t →
      ∃ pre e post st2 out, envs = pre ++ e :: post ∧
        waitLoop st pre = .ranOut st2 ∧ st2.ready_since = none ∧
        evalCycle e st2.prev_logs st2.logging_reset = .ok out ∧
        out.ready = true ∧ e.now = t ∧
        allReadyFrom ⟨out.logs, some t, out.logging_reset⟩ post = true) ∧
    (∀ rs now, stepDebounce false rs now = some none) := by
  refine ⟨fun envs st => waitLoop_success_iff envs st, ?_, fun rs now => rfl⟩
  intro envs st st1 t h0 hrun ht
  rcases waitLoop_origin envs st st1 t hrun ht with ⟨h1, _⟩ | h2
  · rw [h0] at h1
    cases h1
  · exact h2

/-- Witness for C1 at the concrete five-cycle empty-cluster trace. -/
theorem c1_witness :
    ∃ pre e post st1 out t, emptyTrace5 0 = pre ++ e :: post ∧
      waitLoop initState pre = .ranOut st1 ∧
      evalCycle e st1.prev_logs st1.logging_reset = .ok out ∧
      out.ready = true ∧ st1.ready_since = some t ∧
      t + IDLE_CONFIRMATION < e.now :=
  (c1_debounce_success_characterization.1 (emptyTrace5 0) initState).mp
    ⟨some 0, [], waitLoop_emptyTrace5 0⟩

/-- C2: the snapshot statusC2 contains subordinate sub/0 (observed this
cycle, as its agent_version entry shows), yet the cycle's all_units is
only the top-level name s/0: the collection pass (lines 190-203) never
adds subordinate names to all_units, contradicting both the claim and the
code's own comment (line 178, all units including subordinates). -/
theorem c2_all_units_evaluation :
    ("sub/0", subRecC2.agentVersion?) ∈ (collect statusC2).agent_version ∧
    (collect statusC2).all_units = ["s/0"] ∧
    evalCycle envC2 [] false = .ok ⟨true, ["s/0"], [], false, false, [], []⟩ :=
  ⟨by decide, rfl, by rw [evalCycle_def]; decide⟩

/-- C3 counterexample: a snapshot whose only legacy unit has agent-state
error but life dying; the dying branch of the elif chain (line 217)
precedes the error branch (line 223), so evaluation returns a non-fatal
not-ready verdict instead of raising exit code 1, refuting the claim that
every snapshot containing an error legacy unit raises the fatal path. -/
theorem c3_counterexample :
    (collect statusC3).ready_units = [("u/0", dyingErrRec)] ∧
    dyingErrRec.agentStatus? = none ∧
    dyingErrRec.agentState? = some "error" ∧
    evalCycle envC3 [] false = .ok ⟨false, ["u/0"], [], false, false, [], []⟩ :=
  ⟨rfl, rfl, rfl, by rw [evalCycle_def]; decide⟩

/-- C3 (amended: the unit must additionally not be dying or dead): for
every status snapshot whose legacy units include one with agent-state
error and a life outside dying and dead, readiness evaluation raises the
fatal path with exit code exactly 1, regardless of the states of all
other units. -/
theorem c3_legacy_error_fatal_amended :
    ∀ (env : CycleEnv) (pl : List (String × String)) (lr : Bool) (n : String) (u : UnitRec),
      (n, u) ∈ (collect env.status).ready_units →
      isDyingLife u.life? = false → u.agentState? = some "error" →
      ∃ s1, evalCycle env pl lr = .error (1, s1) :=
  fun env pl lr n u hm hd he => evalCycle_error_of_mem hm hd he

/-- Witness for C3 at a concrete snapshot with one error legacy unit. -/
theorem c3_witness :
    ∃ s1, evalCycle envC3w [] false = .error (1, s1) :=
  c3_legacy_error_fatal_amended envC3w [] false "u/0" errRecW
    (by decide) (by decide) (by decide)

/-- C4: a service is marked led as soon as one of its units has a present
version at least 1.23 (part 1), such a unit is never queried (part 2,
under unique unit names), a query is issued only for units whose present
version is below 1.23 (part 3), and a service all of whose units carry
versions below 1.23 becomes led only through a query answering true
(part 4). -/
theorem c4_leadership_check :
    (∀ (il : String → Bool) avs n v, (n, some v) ∈ avs → verGE v [1, 23] = true →
      svcName n ∈ (checkLeaders il avs).services_with_leader) ∧
    (∀ (il : String → Bool) avs n v, (avs.map Prod.fst).Nodup → (n, some v) ∈ avs →
      verGE v [1, 23] = true → n ∉ (checkLeaders il avs).queried) ∧
    (∀ (il : String → Bool) avs n, n ∈ (checkLeaders il avs).queried →
      ∃ v, (n, some v) ∈ avs ∧ verGE v [1, 23] = false) ∧
    (∀ (il : String → Bool) avs sname,
      (∀ p ∈ avs, svcName p.1 = sname → ∃ v, p.2 = some v ∧ verGE v [1, 23] = false) →
      sname ∈ (checkLeaders il avs).services_with_leader →
      ∃ u, u ∈ (checkLeaders il avs).queried ∧ svcName u = sname ∧ il u = true) := by
  refine ⟨?_, ?_, ?_, ?_⟩
  · intro il avs n v hm hv
    rw [checkLeaders_eq]
    exact leaderFold_swl_of_ver il ⟨[], [], []⟩ hm hv
  · intro il avs n v hnd hm hv hq
    rw [checkLeaders_eq] at hq
    rcases leaderFold_queried_inv il ⟨[], [], []⟩ hq with h1 | ⟨w, hw1, hw2⟩
    · simp at h1
    · have heq2 : some v = some w := eq_of_mem_of_nodup_keys hnd hm hw1
      injection heq2 with h3
      rw [← h3] at hw2
      rw [hv] at hw2
      cases hw2
  · intro il avs n hq
    rw [checkLeaders_eq] at hq
    rcases leaderFold_queried_inv il ⟨[], [], []⟩ hq with h1 | h1
    · simp at h1
    · exact h1
  · intro il avs sname hall hmem
    rw [checkLeaders_eq] at hmem ⊢
    exact leaderFold_led_only_by_query il ⟨[], [], []⟩ hall
      (fun h => absurd h (by simp)) hmem

/-- Witness for C4: service a is led by its 1.23.0 unit without a query,
and service b, whose only unit is at 1.22.0, is led exactly through the
query on b/0 answering true. -/
theorem c4_witness :
    svcName "a/0" ∈ (checkLeaders ilW avsW).services_with_leader ∧
    "a/0" ∉ (checkLeaders ilW avsW).queried ∧
    (∃ v, ("b/0", some v) ∈ avsW ∧ verGE v [1, 23] = false) ∧
    (∃ u, u ∈ (checkLeaders ilW avsW).queried ∧ svcName u = "b" ∧ ilW u = true) :=
  ⟨c4_leadership_check.1 ilW avsW "a/0" [1, 23, 0] (by decide) (by decide),
   c4_leadership_check.2.1 ilW avsW "a/0" [1, 23, 0] (by decide) (by decide) (by decide),
   c4_leadership_check.2.2.1 ilW avsW "b/0" (by decide),
   c4_leadership_check.2.2.2 ilW avsW "b" (by decide) (by decide)⟩

/-- C5: a sniffed legacy unit whose fetched tail line matches the previous
cycle's cached line leaves the running verdict unchanged (part 1); a
differing or absent cached line clears the verdict (part 2); in both
cases the fresh cache entry is this cycle's fetched line, and a cycle's
fresh cache holds exactly the units sniffed that cycle with their fetched
lines (part 3); the loop carries the fresh cache wholesale into the next
cycle as prev_logs (part 4). -/
theorem c5_log_sniffing :
    (∀ (lt : String → String) pl (s : SniffSt) n (u : UnitRec),
      isDyingLife u.life? = false → u.agentState? = some "started" → s.ready = true →
      some (lt n) = dictGet pl n →
      legacyStep lt pl s n u = .ok
        { ready := true, logs := dictInsert s.logs n (lt n), logging_reset := true,
          resetCalled := (s.resetCalled || !s.logging_reset),
          sniffed := s.sniffed ++ [n] }) ∧
    (∀ (lt : String → String) pl (s : SniffSt) n (u : UnitRec),
      isDyingLife u.life? = false → u.agentState? = some "started" → s.ready = true →
      some (lt n) ≠ dictGet pl n →
      legacyStep lt pl s n u = .ok
        { ready := false, logs := dictInsert s.logs n (lt n), logging_reset := true,
          resetCalled := (s.resetCalled || !s.logging_reset),
          sniffed := s.sniffed ++ [n] }) ∧
    (∀ (env : CycleEnv) pl lr (out : CycleOut), evalCycle env pl lr = .ok out →
      out.logs.map Prod.fst = out.sniffed ∧ ∀ p ∈ out.logs, p.2 = env.logTail p.1) ∧
    (∀ (st : LoopState) e rest (out : CycleOut) rs,
      evalCycle e st.prev_logs st.logging_reset = .ok out →
      stepDebounce out.ready st.ready_since e.now = some rs →
      waitLoop st (e :: rest) = waitLoop ⟨out.logs, rs, out.logging_reset⟩ rest) := by
  refine ⟨?_, ?_, ?_, ?_⟩
  · intro lt pl s n u hd hst hr hm
    rw [legacyStep_sniff_spec lt pl n u hd hst hr]
    have hdec : decide (some (lt n) = dictGet pl n) = true := by
      rw [hm]
      simp
    rw [hdec]
  · intro lt pl s n u hd hst hr hm
    rw [legacyStep_sniff_spec lt pl n u hd hst hr]
    have hdec : decide (some (lt n) = dictGet pl n) = false := by
      simp [hm]
    rw [hdec]
  · intro env pl lr out h
    exact evalCycle_logs_spec h
  · intro st e rest out rs hev hstep
    exact waitLoop_cons_ok rest hev hstep

/-- Witness for C5: sniffing u/0 with a matching cached line keeps the
verdict ready and rewrites the cache entry. -/
theorem c5_witness :
    legacyStep ltW [("u/0", "x")] sW "u/0" startedRecW =
      .ok ⟨true, [("u/0", "x")], true, true, ["u/0"]⟩ :=
  c5_log_sniffing.1 ltW [("u/0", "x")] sW "u/0" startedRecW
    (by decide) (by decide) rfl (by decide)

/-- C6: a unit exposing agent-status with current different from idle
forces the cycle verdict to not ready (part 1); when every agent-status
entry is idle the scan leaves the running verdict unchanged, so an idle
unit never by itself clears readiness (part 2); and the fatal path can
only arise from a legacy error unit, never from any agent-status value
(part 3). -/
theorem c6_agent_status_readiness :
    (∀ (env : CycleEnv) pl lr (out : CycleOut) na (a : AgentStatus),
      (na, a) ∈ (collect env.status).agent_status → a.current ≠ "idle" →
      evalCycle env pl lr = .ok out → out.ready = false) ∧
    (∀ (r : Bool) entries, (∀ p ∈ entries, (Prod.snd p).current = "idle") →
      agentStatusScan r entries = r) ∧
    (∀ (env : CycleEnv) pl lr c s1, evalCycle env pl lr = .error (c, s1) →
      c = 1 ∧ ∃ n u, (n, u) ∈ (collect env.status).ready_units ∧
        isDyingLife u.life? = false ∧ u.agentState? = some "error") := by
  refine ⟨?_, ?_, ?_⟩
  · intro env pl lr out na a hm hne h
    exact evalCycle_ready_false_of_agent_status hm hne h
  · intro r entries h
    exact agentStatusScan_id h
  · intro env pl lr c s1 h
    exact (evalCycle_error_inv h).2

/-- Witness for C6 at a concrete snapshot whose unit is executing. -/
theorem c6_witness :
    ("m/0", (⟨"executing", "ts"⟩ : AgentStatus)) ∈ (collect statusC6).agent_status ∧
    evalCycle envC6 [] false = .ok ⟨false, ["m/0"], [], false, false, [], []⟩ ∧
    (⟨false, ["m/0"], [], false, false, [], []⟩ : CycleOut).ready = false :=
  ⟨by decide, by rw [evalCycle_def]; decide,
   c6_agent_status_readiness.1 envC6 [] false ⟨false, ["m/0"], [], false, false, [], []⟩
     "m/0" ⟨"executing", "ts"⟩ (by decide) (by decide)
     (by rw [evalCycle_def]; decide)⟩

/-- C7: over a whole run starting with the logging-reset flag unset, the
per-cycle reset invocation flags are exactly the first-nonempty marker of
the per-cycle sniff lists: the reset fires on the first cycle that sniffs
any legacy unit, never again afterwards, and never at all when no cycle
sniffs; consequently it is invoked at most once in total. -/
theorem c7_one_time_logging_reset :
    (∀ envs (st : LoopState), st.logging_reset = false →
      resetFlags st envs = firstMark (sniffFlags st envs)) ∧
    (∀ envs (st : LoopState), st.logging_reset = false →
      (resetFlags st envs).count true ≤ 1) := by
  refine ⟨fun envs st h => resetFlags_firstMark envs st h, ?_⟩
  intro envs st h
  rw [resetFlags_firstMark envs st h]
  exact firstMark_count (sniffFlags st envs)

/-- Witness for C7 on a one-cycle run that sniffs a legacy unit. -/
theorem c7_witness :
    resetFlags initState [envLeg] = firstMark (sniffFlags initState [envLeg]) ∧
    (resetFlags initState [envLeg]).count true ≤ 1 :=
  ⟨c7_one_time_logging_reset.1 [envLeg] initState rfl,
   c7_one_time_logging_reset.2 [envLeg] initState rfl⟩

/-- C8: a snapshot with no services (or no services key) evaluates to a
ready verdict with no observed units, no sniffs and no queries (part 1);
a run of five empty-cluster polls at the 4-second interval returns
success once the debounce window has elapsed (part 2). -/
theorem c8_empty_cluster_ready :
    (∀ (env : CycleEnv) pl lr, env.status.services?.getD [] = [] →
      evalCycle env pl lr = .ok ⟨true, [], [], lr, false, [], []⟩) ∧
    (∀ t, waitLoop initState (emptyTrace5 t) = .success (some t) []) :=
  ⟨fun env pl lr h => evalCycle_emptyServices env pl lr h, waitLoop_emptyTrace5⟩

/-- Witness for C8 at concrete clock values. -/
theorem c8_witness :
    evalCycle (emptyEnv 3) [] false = .ok ⟨true, [], [], false, false, [], []⟩ ∧
    waitLoop initState (emptyTrace5 2) = .success (some 2) [] :=
  ⟨c8_empty_cluster_ready.1 (emptyEnv 3) [] false rfl, c8_empty_cluster_ready.2 2⟩

/-- C9: the dying check precedes the error check in the legacy elif
chain, so a dying legacy unit only clears the verdict, whatever its
agent-state, and never raises (part 1); a snapshot whose only error
legacy units are dying evaluates without a raise to a not-ready verdict,
so the loop keeps polling (part 2). -/
theorem c9_dying_error_no_fatal :
    (∀ (lt : String → String) pl (s : SniffSt) n (u : UnitRec),
      isDyingLife u.life? = true →
      legacyStep lt pl s n u = .ok { s with ready := false }) ∧
    (∀ (env : CycleEnv) pl lr n0 (u0 : UnitRec),
      (n0, u0) ∈ (collect env.status).ready_units →
      isDyingLife u0.life? = true → u0.agentState? = some "error" →
      (∀ n u, (n, u) ∈ (collect env.status).ready_units →
        u.agentState? = some "error" → isDyingLife u.life? = true) →
      ∃ out, evalCycle env pl lr = .ok out ∧ out.ready = false) := by
  refine ⟨fun lt pl s n u hd => legacyStep_dying lt pl n u hd, ?_⟩
  intro env pl lr n0 u0 hm0 hd0 he0 hno
  have hno2 : ∀ n u, (n, u) ∈ sortByKey (collect env.status).ready_units →
      u.agentState? = some "error" → isDyingLife u.life? = true :=
    fun n u hm he => hno n u (mem_sortByKey.mp hm) he
  obtain ⟨s1, hscan⟩ := legacyScan_ok_of_no_error env.logTail pl
    (s := initSniffSt env lr) hno2
  have hready : s1.ready = false :=
    legacyScan_ready_false_of_dying env.logTail pl (mem_sortByKey.mpr hm0) hd0 hscan
  refine ⟨⟨false, (collect env.status).all_units, s1.logs, s1.logging_reset,
    s1.resetCalled, s1.sniffed, []⟩, ?_, rfl⟩
  rw [evalCycle_def, hscan]
  simp [hready]

/-- Witness for C9 at the concrete dying-and-error snapshot. -/
theorem c9_witness :
    ∃ out, evalCycle envC3 [] false = .ok out ∧ out.ready = false :=
  c9_dying_error_no_fatal.2 envC3 [] false "u/0" dyingErrRec
    (by decide) (by decide) (by decide)
    (by
      intro n u hm he
      have hl : (collect envC3.status).ready_units = [("u/0", dyingErrRec)] := by decide
      rw [hl] at hm
      simp only [List.mem_singleton] at hm
      have hu : u = dyingErrRec := congrArg Prod.snd hm
      rw [hu]
      decide)

/-- C10: once the running verdict is false, the rest of the legacy loop
sniffs nothing and the fresh cache gains nothing, though a later error
unit can still raise (part 1); a sniffed unit with no cached previous
line is classified active and clears the verdict (part 2); a unit not
sniffed this cycle has no entry in the fresh cache, which becomes the
next cycle's comparison baseline (part 3). -/
theorem c10_sniff_requires_ready :
    (∀ (lt : String → String) pl (s : SniffSt) l, s.ready = false →
      legacyScan lt pl s l = .ok s ∨ legacyScan lt pl s l = .error (1, s)) ∧
    (∀ (lt : String → String) pl (s : SniffSt) n (u : UnitRec),
      isDyingLife u.life? = false → u.agentState? = some "started" → s.ready = true →
      dictGet pl n = none →
      legacyStep lt pl s n u = .ok
        { ready := false, logs := dictInsert s.logs n (lt n), logging_reset := true,
          resetCalled := (s.resetCalled || !s.logging_reset),
          sniffed := s.sniffed ++ [n] }) ∧
    (∀ (env : CycleEnv) pl lr (out : CycleOut) n, evalCycle env pl lr = .ok out →
      n ∉ out.sniffed → dictGet out.logs n = none) := by
  refine ⟨?_, ?_, ?_⟩
  · intro lt pl s l h
    exact legacyScan_of_ready_false lt pl l h
  · intro lt pl s n u hd hst hr hnone
    rw [legacyStep_sniff_spec lt pl n u hd hst hr]
    have hdec : decide (some (lt n) = dictGet pl n) = false := by
      rw [hnone]
      simp
    rw [hdec]
  · intro env pl lr out n h hn
    have hspec := evalCycle_logs_spec h
    rw [dictGet_eq_none_iff, hspec.1]
    exact hn

/-- Witness for C10: with the verdict already false, the scan over a
started legacy unit changes nothing. -/
theorem c10_witness :
    legacyScan ltW [] sWF [("u/0", startedRecW)] = .ok sWF ∨
    legacyScan ltW [] sWF [("u/0", startedRecW)] = .error (1, sWF) :=
  c10_sniff_requires_ready.1 ltW [] sWF [("u/0", startedRecW)] rfl
